import Mathlib

/-!
Shallow embedding of the OpenRisk candidate-validation engine
(`src/validators.rs` and the wrapper layer in `src/lib.rs`).

Strings are modelled as `List Char` (the sequence produced by Rust's
`str::chars()`).  Machine integers (`u32`) are modelled as `Nat`; where
wrapping or overflow matters we take `% 2 ^ 32` explicitly, and the
fallible / panicking operations of the source (checked subtraction,
slice indexing, `str::parse::<u32>`) are modelled with `Option`.
-/

/-- `char::is_ascii_digit`: `matches!(c, '0'..='9')`. -/
def is_ascii_digit (c : Char) : Bool :=
  decide ('0' ≤ c) && decide (c ≤ '9')

/-- `char::to_digit(10)`: `(c as u32).wrapping_sub('0' as u32)` and succeed
iff the wrapped difference is `< 10`.  The wrapping subtraction is modelled
exactly (`+ 2^32` before the truncating `Nat` subtraction, then `% 2^32`). -/
def char_to_digit10 (c : Char) : Option Nat :=
  let d := (c.toNat + 2 ^ 32 - 48) % 2 ^ 32
  if d < 10 then some d else none

/-- The digit sequence `luhn` extracts from its input:
`number.chars().filter(|c| c.is_ascii_digit()).filter_map(|c| c.to_digit(10))`. -/
def luhn_digits (number : List Char) : List Nat :=
  (number.filter is_ascii_digit).filterMap char_to_digit10

/-- The per-digit transform inside `luhn`'s `map` closure: digits at odd
0-indexed positions (counting from the right) are doubled, with 9 subtracted
when the doubled value exceeds 9. -/
def luhnTransform (i d : Nat) : Nat :=
  if i % 2 = 1 then
    (if d * 2 > 9 then d * 2 - 9 else d * 2)
  else d

/-- The checksum `luhn` computes: `digits.iter().rev().enumerate().map(..).sum()`. -/
def luhn_sum (ds : List Nat) : Nat :=
  ((ds.reverse.enum).map (fun p => luhnTransform p.1 p.2)).sum

/-- `validators::luhn`: extract digits, gate the count to 13..=19, then test
the Luhn checksum for divisibility by 10. -/
def luhn (number : List Char) : Bool :=
  let digits := luhn_digits number
  if digits.length < 13 ∨ digits.length > 19 then false
  else luhn_sum digits % 10 == 0

/-- One step of the `u32::from_str` accumulation loop: multiply the
accumulator by 10 and add the next digit, failing on a non-digit character or
on `u32` overflow (a failure is sticky, as the Rust loop returns early). -/
def parse_u32_step (acc : Option Nat) (c : Char) : Option Nat :=
  acc.bind fun a =>
    (char_to_digit10 c).bind fun d =>
      if a * 10 + d < 2 ^ 32 then some (a * 10 + d) else none

/-- `str::parse::<u32>`: reject the empty string, allow one leading `+` sign
(which must be followed by at least one character), then accumulate decimal
digits with overflow checking. -/
def parse_u32 (s : List Char) : Option Nat :=
  match s with
  | [] => none
  | c :: rest =>
    if c = '+' then (if rest = [] then none else rest.foldl parse_u32_step (some 0))
    else (c :: rest).foldl parse_u32_step (some 0)

/-- `validators::ssn_format`: keep the digit characters, require exactly 9 of
them, parse the 3/2/4 slices as area, group and serial, reject reserved areas
(0, 666, ≥ 900) and zero group or serial. -/
def ssn_format (ssn : List Char) : Bool :=
  let digits := ssn.filter is_ascii_digit
  if digits.length ≠ 9 then false
  else
    match parse_u32 (digits.take 3) with
    | none => false
    | some area =>
      match parse_u32 ((digits.drop 3).take 2) with
      | none => false
      | some group =>
        match parse_u32 ((digits.drop 5).take 4) with
        | none => false
        | some serial =>
          if area = 0 ∨ area = 666 ∨ area ≥ 900 then false
          else decide (group > 0) && decide (serial > 0)

/-- `src/lib.rs`: `validate_luhn(number) = validators::luhn(number)`. -/
def validate_luhn (number : List Char) : Bool :=
  luhn number

/-- `src/lib.rs`: `validate_ssn_format(ssn) = validators::ssn_format(ssn)`. -/
def validate_ssn_format (ssn : List Char) : Bool :=
  ssn_format ssn

/-- The decimal value of a digit string, as `u32::from_str` computes it when
no failure occurs (fold `acc * 10 + digit` over the characters). -/
def decimalVal (l : List Char) : Nat :=
  l.foldl (fun acc c => acc * 10 + (c.toNat - 48)) 0

/-- Spec-side Luhn weighted sum, written directly from the spec's words:
process the digits from last to first, position 0 at the right; double at odd
positions, subtracting 9 when the doubled value exceeds 9. -/
def luhnSumRev : Nat → List Nat → Nat
  | _, [] => 0
  | i, d :: rest =>
    (if i % 2 = 1 then (if d * 2 > 9 then d * 2 - 9 else d * 2) else d) + luhnSumRev (i + 1) rest

/-- Spec-side Luhn checksum of a digit list given most-significant first. -/
def spec_luhn_sum (ds : List Nat) : Nat :=
  luhnSumRev 0 ds.reverse

/-- Spec-side digit sequence: the ASCII decimal digits of the string, in
order, as numeric values. -/
def spec_digit_seq (s : List Char) : List Nat :=
  (s.filter is_ascii_digit).map (fun c => c.toNat - 48)

/-- A sequence of validator calls, one result per input: the engine holds no
state, so a batch of calls is just a map over the inputs. -/
def runValidator (f : List Char → Bool) (inputs : List (List Char)) : List Bool :=
  inputs.map f


/-! ### Panic-explicit (checked) arithmetic, slicing and validators
These mirror the debug-mode semantics of the source: `u32` subtraction and
addition/multiplication panic on underflow/overflow, and string slicing
panics out of bounds.  `none` marks a panic; `some` carries the result. -/

def checked_sub_u32 (a b : Nat) : Option Nat :=
  if b ≤ a then some (a - b) else none

def checked_mul_u32 (a b : Nat) : Option Nat :=
  if a * b < 2 ^ 32 then some (a * b) else none

def checked_add_u32 (a b : Nat) : Option Nat :=
  if a + b < 2 ^ 32 then some (a + b) else none

/-- Checked version of the per-digit transform: `d * 2` may overflow and
`doubled - 9` may underflow a `u32`. -/
def luhnTransformChecked (i d : Nat) : Option Nat :=
  if i % 2 = 1 then
    (checked_mul_u32 d 2).bind fun doubled =>
      if doubled > 9 then checked_sub_u32 doubled 9 else some doubled
  else some d

/-- One step of the checked summation loop. -/
def luhn_checked_step (acc : Option Nat) (p : Nat × Nat) : Option Nat :=
  acc.bind fun a => (luhnTransformChecked p.1 p.2).bind fun t => checked_add_u32 a t

/-- Checked version of `luhn`'s checksum summation. -/
def luhn_sum_checked (ds : List Nat) : Option Nat :=
  (ds.reverse.enum).foldl luhn_checked_step (some 0)

/-- Checked version of `luhn`: `none` would mean a panic somewhere inside. -/
def luhn_checked (number : List Char) : Option Bool :=
  let digits := luhn_digits number
  if digits.length < 13 ∨ digits.length > 19 then some false
  else (luhn_sum_checked digits).bind fun sum => some (sum % 10 == 0)

/-- Checked version of string slicing `l[a..b]`, which panics out of bounds. -/
def checked_slice (l : List Char) (a b : Nat) : Option (List Char) :=
  if a ≤ b ∧ b ≤ l.length then some ((l.drop a).take (b - a)) else none

/-- Checked version of `ssn_format`: `none` would mean an out-of-bounds slice;
a parse failure is a normal `false` verdict, exactly as in the source. -/
def ssn_format_checked (ssn : List Char) : Option Bool :=
  let digits := ssn.filter is_ascii_digit
  if digits.length ≠ 9 then some false
  else
    (checked_slice digits 0 3).bind fun s1 =>
      match parse_u32 s1 with
      | none => some false
      | some area =>
        (checked_slice digits 3 5).bind fun s2 =>
          match parse_u32 s2 with
          | none => some false
          | some group =>
            (checked_slice digits 5 9).bind fun s3 =>
              match parse_u32 s3 with
              | none => some false
              | some serial =>
                if area = 0 ∨ area = 666 ∨ area ≥ 900 then some false
                else some (decide (group > 0) && decide (serial > 0))

/-- Release-mode (wrapping, mod `2^32`) version of the per-digit transform. -/
def luhnTransform_u32 (i d : Nat) : Nat :=
  if i % 2 = 1 then
    (if d * 2 % 2 ^ 32 > 9 then (d * 2 % 2 ^ 32 + 2 ^ 32 - 9) % 2 ^ 32
     else d * 2 % 2 ^ 32)
  else d

/-- Release-mode (wrapping) version of `luhn`'s checksum summation. -/
def luhn_sum_u32 (ds : List Nat) : Nat :=
  (ds.reverse.enum).foldl (fun acc p => (acc + luhnTransform_u32 p.1 p.2) % 2 ^ 32) 0

/-! ### Basic facts about digit characters and extraction -/

theorem is_ascii_digit_iff (c : Char) :
    is_ascii_digit c = true ↔ 48 ≤ c.toNat ∧ c.toNat ≤ 57 := by
  simp only [is_ascii_digit, Bool.and_eq_true, decide_eq_true_eq]
  constructor
  · rintro ⟨h1, h2⟩
    exact ⟨Char.le_def.mp h1, Char.le_def.mp h2⟩
  · rintro ⟨h1, h2⟩
    exact ⟨Char.le_def.mpr h1, Char.le_def.mpr h2⟩

theorem char_toNat_lt (c : Char) : c.toNat < 2 ^ 32 :=
  c.val.toNat_lt

theorem char_to_digit10_of_digit {c : Char} (h : is_ascii_digit c = true) :
    char_to_digit10 c = some (c.toNat - 48) := by
  obtain ⟨h1, h2⟩ := (is_ascii_digit_iff c).mp h
  have hlt := char_toNat_lt c
  unfold char_to_digit10
  have hw : (c.toNat + 2 ^ 32 - 48) % 2 ^ 32 = c.toNat - 48 := by omega
  rw [hw]
  have : c.toNat - 48 < 10 := by omega
  simp [this]

theorem filter_all_digits (s : List Char) :
    (s.filter is_ascii_digit).all is_ascii_digit = true := by
  simp only [List.all_eq_true, List.mem_filter]
  exact fun x hx => hx.2

theorem all_digits_take {l : List Char} (n : Nat)
    (h : l.all is_ascii_digit = true) : (l.take n).all is_ascii_digit = true := by
  simp only [List.all_eq_true] at h ⊢
  exact fun x hx => h x (List.mem_of_mem_take hx)

theorem all_digits_drop {l : List Char} (n : Nat)
    (h : l.all is_ascii_digit = true) : (l.drop n).all is_ascii_digit = true := by
  simp only [List.all_eq_true] at h ⊢
  exact fun x hx => h x (List.mem_of_mem_drop hx)

theorem filterMap_digits_eq_map {l : List Char} (h : l.all is_ascii_digit = true) :
    l.filterMap char_to_digit10 = l.map (fun c => c.toNat - 48) := by
  induction l with
  | nil => rfl
  | cons c cs ih =>
    simp only [List.all_cons, Bool.and_eq_true] at h
    rw [List.filterMap_cons, char_to_digit10_of_digit h.1]
    simp only [List.map_cons]
    rw [ih h.2]

theorem luhn_digits_eq_map (s : List Char) :
    luhn_digits s = (s.filter is_ascii_digit).map (fun c => c.toNat - 48) := by
  unfold luhn_digits
  exact filterMap_digits_eq_map (filter_all_digits s)

theorem luhn_digits_lt_ten (s : List Char) :
    ∀ d ∈ luhn_digits s, d < 10 := by
  rw [luhn_digits_eq_map]
  intro d hd
  obtain ⟨c, hc, rfl⟩ := List.mem_map.mp hd
  obtain ⟨-, h2⟩ := (is_ascii_digit_iff c).mp ((List.mem_filter.mp hc).2)
  omega

/-! ### Decimal values and `u32` parsing -/

theorem decimal_foldl_eq (l : List Char) :
    ∀ acc : Nat,
      l.foldl (fun acc c => acc * 10 + (c.toNat - 48)) acc =
        acc * 10 ^ l.length + decimalVal l := by
  induction l with
  | nil => intro acc; simp [decimalVal]
  | cons c cs ih =>
    intro acc
    simp only [List.foldl_cons, decimalVal, List.length_cons]
    rw [ih (acc * 10 + (c.toNat - 48))]
    have h0 : List.foldl (fun acc c => acc * 10 + (c.toNat - 48)) (c.toNat - 48) cs =
        (c.toNat - 48) * 10 ^ cs.length + decimalVal cs := by
      have := ih (c.toNat - 48)
      simpa [decimalVal] using this
    simp only [decimalVal] at h0 ⊢
    rw [show (0 * 10 + (c.toNat - 48)) = c.toNat - 48 by omega, h0]
    ring

theorem decimalVal_cons (c : Char) (cs : List Char) :
    decimalVal (c :: cs) = (c.toNat - 48) * 10 ^ cs.length + decimalVal cs := by
  simp only [decimalVal, List.foldl_cons]
  have := decimal_foldl_eq cs (0 * 10 + (c.toNat - 48))
  simpa using this

theorem decimalVal_lt {l : List Char} (h : l.all is_ascii_digit = true) :
    decimalVal l < 10 ^ l.length := by
  induction l with
  | nil => simp [decimalVal]
  | cons c cs ih =>
    simp only [List.all_cons, Bool.and_eq_true] at h
    obtain ⟨-, h2⟩ := (is_ascii_digit_iff c).mp h.1
    have hrec := ih h.2
    rw [decimalVal_cons, List.length_cons, pow_succ]
    have hd : c.toNat - 48 ≤ 9 := by omega
    calc (c.toNat - 48) * 10 ^ cs.length + decimalVal cs
        < (c.toNat - 48) * 10 ^ cs.length + 10 ^ cs.length := by omega
      _ = (c.toNat - 48 + 1) * 10 ^ cs.length := by ring
      _ ≤ 10 * 10 ^ cs.length := Nat.mul_le_mul_right _ (by omega)
      _ = 10 ^ cs.length * 10 := by ring

theorem decimal_foldl_ge (l : List Char) (acc : Nat) :
    acc ≤ l.foldl (fun acc c => acc * 10 + (c.toNat - 48)) acc := by
  rw [decimal_foldl_eq]
  calc acc ≤ acc * 10 ^ l.length := Nat.le_mul_of_pos_right _ (by positivity)
    _ ≤ acc * 10 ^ l.length + decimalVal l := Nat.le_add_right _ _

theorem parse_u32_foldl_eq {l : List Char} (h : l.all is_ascii_digit = true) :
    ∀ acc : Nat,
      l.foldl (fun acc c => acc * 10 + (c.toNat - 48)) acc < 2 ^ 32 →
      l.foldl parse_u32_step (some acc) =
        some (l.foldl (fun acc c => acc * 10 + (c.toNat - 48)) acc) := by
  induction l with
  | nil => intro acc _; rfl
  | cons c cs ih =>
    intro acc hlt
    simp only [List.all_cons, Bool.and_eq_true] at h
    simp only [List.foldl_cons] at hlt ⊢
    have hstep : acc * 10 + (c.toNat - 48) < 2 ^ 32 :=
      lt_of_le_of_lt (decimal_foldl_ge cs _) hlt
    have hone : parse_u32_step (some acc) c = some (acc * 10 + (c.toNat - 48)) := by
      unfold parse_u32_step
      rw [Option.some_bind, char_to_digit10_of_digit h.1, Option.some_bind]
      exact if_pos hstep
    rw [hone]
    exact ih h.2 _ hlt

theorem parse_u32_eq {l : List Char} (hne : l ≠ [])
    (h : l.all is_ascii_digit = true) (hlt : decimalVal l < 2 ^ 32) :
    parse_u32 l = some (decimalVal l) := by
  cases l with
  | nil => exact absurd rfl hne
  | cons c cs =>
    have hall := h
    simp only [List.all_cons, Bool.and_eq_true] at h
    have hplus : c ≠ '+' := by
      intro hc
      rw [hc] at h
      exact absurd h.1 (by decide)
    show (if c = '+' then (if cs = [] then none else cs.foldl parse_u32_step (some 0))
          else (c :: cs).foldl parse_u32_step (some 0)) = some (decimalVal (c :: cs))
    rw [if_neg hplus]
    exact parse_u32_foldl_eq hall 0 hlt

theorem ne_nil_of_length_eq {l : List Char} {n : Nat} (h : l.length = n) (hn : n ≠ 0) :
    l ≠ [] := by
  intro he
  rw [he] at h
  simp only [List.length_nil] at h
  omega

theorem parse_slice_eq {l : List Char} (hall : l.all is_ascii_digit = true)
    (hlen : l.length ≤ 9) (hne : l ≠ []) :
    parse_u32 l = some (decimalVal l) := by
  apply parse_u32_eq hne hall
  calc decimalVal l < 10 ^ l.length := decimalVal_lt hall
    _ ≤ 10 ^ 9 := Nat.pow_le_pow_right (by omega) hlen
    _ < 2 ^ 32 := by norm_num

/-- Unfolding of `ssn_format` to the spec's verdict formula: the digit count
is exactly 9, the 3-digit area is not 0, not 666 and below 900, and the
2-digit group and 4-digit serial are strictly positive. -/
theorem ssn_format_eq_true_iff (s : List Char) :
    ssn_format s = true ↔
      ((s.filter is_ascii_digit).length = 9 ∧
       decimalVal ((s.filter is_ascii_digit).take 3) ≠ 0 ∧
       decimalVal ((s.filter is_ascii_digit).take 3) ≠ 666 ∧
       decimalVal ((s.filter is_ascii_digit).take 3) < 900 ∧
       0 < decimalVal (((s.filter is_ascii_digit).drop 3).take 2) ∧
       0 < decimalVal (((s.filter is_ascii_digit).drop 5).take 4)) := by
  have hall := filter_all_digits s
  by_cases h9 : (s.filter is_ascii_digit).length = 9
  · have hlt3 : ((s.filter is_ascii_digit).take 3).length = 3 := by
      rw [List.length_take, h9]; omega
    have hlg : (((s.filter is_ascii_digit).drop 3).take 2).length = 2 := by
      rw [List.length_take, List.length_drop, h9]; omega
    have hls : (((s.filter is_ascii_digit).drop 5).take 4).length = 4 := by
      rw [List.length_take, List.length_drop, h9]; omega
    have hA : parse_u32 ((s.filter is_ascii_digit).take 3) =
        some (decimalVal ((s.filter is_ascii_digit).take 3)) :=
      parse_slice_eq (all_digits_take _ hall) (by omega) (ne_nil_of_length_eq hlt3 (by omega))
    have hG : parse_u32 (((s.filter is_ascii_digit).drop 3).take 2) =
        some (decimalVal (((s.filter is_ascii_digit).drop 3).take 2)) :=
      parse_slice_eq (all_digits_take _ (all_digits_drop _ hall)) (by omega)
        (ne_nil_of_length_eq hlg (by omega))
    have hS : parse_u32 (((s.filter is_ascii_digit).drop 5).take 4) =
        some (decimalVal (((s.filter is_ascii_digit).drop 5).take 4)) :=
      parse_slice_eq (all_digits_take _ (all_digits_drop _ hall)) (by omega)
        (ne_nil_of_length_eq hls (by omega))
    unfold ssn_format
    rw [if_neg (by omega : ¬((s.filter is_ascii_digit).length ≠ 9))]
    simp only [hA, hG, hS]
    constructor
    · intro hTrue
      by_cases hbad : (decimalVal ((s.filter is_ascii_digit).take 3) = 0 ∨
          decimalVal ((s.filter is_ascii_digit).take 3) = 666 ∨
          decimalVal ((s.filter is_ascii_digit).take 3) ≥ 900)
      · rw [if_pos hbad] at hTrue
        exact absurd hTrue (by simp)
      · rw [if_neg hbad] at hTrue
        simp only [Bool.and_eq_true, decide_eq_true_eq] at hTrue
        push_neg at hbad
        exact ⟨h9, hbad.1, hbad.2.1, by omega, hTrue.1, hTrue.2⟩
    · rintro ⟨-, ha0, ha666, ha900, hg, hs2⟩
      rw [if_neg (by omega)]
      simp only [Bool.and_eq_true, decide_eq_true_eq]
      exact ⟨hg, hs2⟩
  · unfold ssn_format
    rw [if_pos h9]
    simp only [Bool.false_eq_true, false_iff]
    intro hc
    exact h9 hc.1

/-! ### The Luhn checksum -/

theorem enumFrom_map_sum_eq (l : List Nat) :
    ∀ i : Nat,
      ((List.enumFrom i l).map (fun p => luhnTransform p.1 p.2)).sum = luhnSumRev i l := by
  induction l with
  | nil => intro i; rfl
  | cons d rest ih =>
    intro i
    rw [List.enumFrom_cons, List.map_cons, List.sum_cons, ih (i + 1)]
    rfl

theorem luhn_sum_eq_spec (ds : List Nat) : luhn_sum ds = spec_luhn_sum ds := by
  unfold luhn_sum spec_luhn_sum
  rw [show ds.reverse.enum = List.enumFrom 0 ds.reverse from rfl]
  exact enumFrom_map_sum_eq ds.reverse 0

/-- Unfolding of `luhn` to the spec's verdict formula: between 13 and 19
extracted digits and a weighted sum divisible by 10. -/
theorem luhn_eq_true_iff (s : List Char) :
    luhn s = true ↔
      (13 ≤ (luhn_digits s).length ∧ (luhn_digits s).length ≤ 19 ∧
       spec_luhn_sum (luhn_digits s) % 10 = 0) := by
  simp only [luhn]
  by_cases hlen : (luhn_digits s).length < 13 ∨ (luhn_digits s).length > 19
  · rw [if_pos hlen]
    simp only [Bool.false_eq_true, false_iff]
    intro hc
    obtain ⟨h1, h2, -⟩ := hc
    omega
  · rw [if_neg hlen, luhn_sum_eq_spec]
    simp only [beq_iff_eq]
    constructor
    · intro h
      exact ⟨by omega, by omega, h⟩
    · intro h
      exact h.2.2

theorem luhn_filter_invariant {s t : List Char}
    (h : s.filter is_ascii_digit = t.filter is_ascii_digit) : luhn s = luhn t := by
  simp only [luhn, luhn_digits]
  rw [h]

theorem ssn_filter_invariant {s t : List Char}
    (h : s.filter is_ascii_digit = t.filter is_ascii_digit) : ssn_format s = ssn_format t := by
  simp only [ssn_format]
  rw [h]


/-! ### The checked and wrapping versions agree with the ideal arithmetic -/

theorem luhnTransform_le {i d : Nat} (hd : d < 10) : luhnTransform i d ≤ 18 := by
  unfold luhnTransform
  by_cases hi : i % 2 = 1
  · rw [if_pos hi]
    by_cases h9 : d * 2 > 9
    · rw [if_pos h9]; omega
    · rw [if_neg h9]; omega
  · rw [if_neg hi]; omega

theorem luhnTransformChecked_eq {i d : Nat} (hd : d < 10) :
    luhnTransformChecked i d = some (luhnTransform i d) := by
  unfold luhnTransformChecked luhnTransform
  by_cases hi : i % 2 = 1
  · rw [if_pos hi, if_pos hi]
    have hmul : d * 2 < 2 ^ 32 := by omega
    unfold checked_mul_u32
    rw [if_pos hmul, Option.some_bind]
    by_cases h9 : d * 2 > 9
    · rw [if_pos h9, if_pos h9]
      unfold checked_sub_u32
      rw [if_pos (by omega)]
    · rw [if_neg h9, if_neg h9]
  · rw [if_neg hi, if_neg hi]

theorem luhnTransform_u32_eq {i d : Nat} (hd : d < 10) :
    luhnTransform_u32 i d = luhnTransform i d := by
  unfold luhnTransform_u32 luhnTransform
  have h1 : d * 2 % 2 ^ 32 = d * 2 := Nat.mod_eq_of_lt (by omega)
  rw [h1]
  by_cases hi : i % 2 = 1
  · rw [if_pos hi, if_pos hi]
    by_cases h9 : d * 2 > 9
    · rw [if_pos h9, if_pos h9]
      omega
    · rw [if_neg h9, if_neg h9]
  · rw [if_neg hi, if_neg hi]

theorem snd_mem_of_mem_enumFrom {α : Type} {p : Nat × α} :
    ∀ {l : List α} {i : Nat}, p ∈ List.enumFrom i l → p.2 ∈ l := by
  intro l
  induction l with
  | nil =>
    intro i h
    simp [List.enumFrom] at h
  | cons x xs ih =>
    intro i h
    rw [List.enumFrom_cons] at h
    rcases List.mem_cons.mp h with h1 | h2
    · subst h1
      exact List.mem_cons_self _ _
    · exact List.mem_cons_of_mem _ (ih h2)

theorem luhn_map_sum_le {l : List (Nat × Nat)} (hd : ∀ p ∈ l, p.2 < 10) :
    (l.map (fun p => luhnTransform p.1 p.2)).sum ≤ 18 * l.length := by
  induction l with
  | nil => simp
  | cons p rest ih =>
    simp only [List.map_cons, List.sum_cons, List.length_cons]
    have h1 : luhnTransform p.1 p.2 ≤ 18 := luhnTransform_le (hd p (List.mem_cons_self _ _))
    have h2 := ih (fun q hq => hd q (List.mem_cons_of_mem _ hq))
    omega

theorem luhn_sum_checked_go {l : List (Nat × Nat)} (hd : ∀ p ∈ l, p.2 < 10) :
    ∀ a : Nat, a + (l.map (fun p => luhnTransform p.1 p.2)).sum < 2 ^ 32 →
      l.foldl luhn_checked_step (some a) =
        some (a + (l.map (fun p => luhnTransform p.1 p.2)).sum) := by
  induction l with
  | nil =>
    intro a _
    simp
  | cons p rest ih =>
    intro a hlt
    simp only [List.map_cons, List.sum_cons] at hlt ⊢
    simp only [List.foldl_cons]
    have hstep : luhn_checked_step (some a) p = some (a + luhnTransform p.1 p.2) := by
      unfold luhn_checked_step
      rw [Option.some_bind, luhnTransformChecked_eq (hd p (List.mem_cons_self _ _)),
        Option.some_bind]
      unfold checked_add_u32
      rw [if_pos (by omega)]
    rw [hstep, ih (fun q hq => hd q (List.mem_cons_of_mem _ hq)) _ (by omega)]
    congr 1
    omega

theorem luhn_sum_u32_go {l : List (Nat × Nat)} (hd : ∀ p ∈ l, p.2 < 10) :
    ∀ a : Nat, a + (l.map (fun p => luhnTransform p.1 p.2)).sum < 2 ^ 32 →
      l.foldl (fun acc p => (acc + luhnTransform_u32 p.1 p.2) % 2 ^ 32) a =
        a + (l.map (fun p => luhnTransform p.1 p.2)).sum := by
  induction l with
  | nil =>
    intro a _
    simp
  | cons p rest ih =>
    intro a hlt
    simp only [List.map_cons, List.sum_cons] at hlt ⊢
    simp only [List.foldl_cons]
    rw [luhnTransform_u32_eq (hd p (List.mem_cons_self _ _)),
      Nat.mod_eq_of_lt (by omega : a + luhnTransform p.1 p.2 < 2 ^ 32),
      ih (fun q hq => hd q (List.mem_cons_of_mem _ hq)) _ (by omega)]
    omega

theorem enum_rev_snd_lt {ds : List Nat} (hd : ∀ d ∈ ds, d < 10) :
    ∀ p ∈ ds.reverse.enum, p.2 < 10 := by
  intro p hp
  have h2 : p.2 ∈ ds.reverse := snd_mem_of_mem_enumFrom hp
  exact hd p.2 (List.mem_reverse.mp h2)

theorem luhn_sum_le {ds : List Nat} (hd : ∀ d ∈ ds, d < 10) :
    luhn_sum ds ≤ 18 * ds.length := by
  unfold luhn_sum
  have := luhn_map_sum_le (enum_rev_snd_lt hd)
  rwa [List.enum_length, List.length_reverse] at this

theorem luhn_sum_checked_eq {ds : List Nat} (hd : ∀ d ∈ ds, d < 10)
    (hlen : ds.length ≤ 19) : luhn_sum_checked ds = some (luhn_sum ds) := by
  unfold luhn_sum_checked
  have hsum : (((ds.reverse.enum).map (fun p => luhnTransform p.1 p.2)).sum) < 2 ^ 32 := by
    have h1 := luhn_map_sum_le (enum_rev_snd_lt hd)
    rw [List.enum_length, List.length_reverse] at h1
    omega
  have := luhn_sum_checked_go (enum_rev_snd_lt hd) 0 (by omega)
  rw [this]
  unfold luhn_sum
  norm_num

theorem luhn_sum_u32_eq {ds : List Nat} (hd : ∀ d ∈ ds, d < 10)
    (hlen : ds.length ≤ 19) : luhn_sum_u32 ds = luhn_sum ds := by
  unfold luhn_sum_u32
  have hsum : (((ds.reverse.enum).map (fun p => luhnTransform p.1 p.2)).sum) < 2 ^ 32 := by
    have h1 := luhn_map_sum_le (enum_rev_snd_lt hd)
    rw [List.enum_length, List.length_reverse] at h1
    omega
  have := luhn_sum_u32_go (enum_rev_snd_lt hd) 0 (by omega)
  rw [this]
  unfold luhn_sum
  norm_num

theorem luhn_checked_eq (s : List Char) : luhn_checked s = some (luhn s) := by
  simp only [luhn_checked, luhn]
  by_cases hlen : (luhn_digits s).length < 13 ∨ (luhn_digits s).length > 19
  · rw [if_pos hlen, if_pos hlen]
  · rw [if_neg hlen, if_neg hlen,
      luhn_sum_checked_eq (luhn_digits_lt_ten s) (by omega), Option.some_bind]

/-! ### Slices and parses of a 9-digit filtered string never fail -/

theorem ssn_slice_lengths {s : List Char}
    (h9 : (s.filter is_ascii_digit).length = 9) :
    ((s.filter is_ascii_digit).take 3).length = 3 ∧
    (((s.filter is_ascii_digit).drop 3).take 2).length = 2 ∧
    (((s.filter is_ascii_digit).drop 5).take 4).length = 4 := by
  refine ⟨?_, ?_, ?_⟩
  · rw [List.length_take, h9]; omega
  · rw [List.length_take, List.length_drop, h9]; omega
  · rw [List.length_take, List.length_drop, h9]; omega

theorem ssn_parses {s : List Char} (h9 : (s.filter is_ascii_digit).length = 9) :
    parse_u32 ((s.filter is_ascii_digit).take 3) =
      some (decimalVal ((s.filter is_ascii_digit).take 3)) ∧
    parse_u32 (((s.filter is_ascii_digit).drop 3).take 2) =
      some (decimalVal (((s.filter is_ascii_digit).drop 3).take 2)) ∧
    parse_u32 (((s.filter is_ascii_digit).drop 5).take 4) =
      some (decimalVal (((s.filter is_ascii_digit).drop 5).take 4)) := by
  have hall := filter_all_digits s
  obtain ⟨hl1, hl2, hl3⟩ := ssn_slice_lengths h9
  refine ⟨?_, ?_, ?_⟩
  · exact parse_slice_eq (all_digits_take _ hall) (by omega)
      (ne_nil_of_length_eq hl1 (by omega))
  · exact parse_slice_eq (all_digits_take _ (all_digits_drop _ hall)) (by omega)
      (ne_nil_of_length_eq hl2 (by omega))
  · exact parse_slice_eq (all_digits_take _ (all_digits_drop _ hall)) (by omega)
      (ne_nil_of_length_eq hl3 (by omega))

theorem ssn_slices_ok {s : List Char} (h9 : (s.filter is_ascii_digit).length = 9) :
    checked_slice (s.filter is_ascii_digit) 0 3 =
      some ((s.filter is_ascii_digit).take 3) ∧
    checked_slice (s.filter is_ascii_digit) 3 5 =
      some (((s.filter is_ascii_digit).drop 3).take 2) ∧
    checked_slice (s.filter is_ascii_digit) 5 9 =
      some (((s.filter is_ascii_digit).drop 5).take 4) := by
  refine ⟨?_, ?_, ?_⟩
  · unfold checked_slice
    rw [if_pos (by omega)]
    norm_num
  · unfold checked_slice
    rw [if_pos (by omega)]
  · unfold checked_slice
    rw [if_pos (by omega)]

theorem ssn_format_checked_eq (s : List Char) :
    ssn_format_checked s = some (ssn_format s) := by
  simp only [ssn_format_checked, ssn_format]
  by_cases h9 : (s.filter is_ascii_digit).length = 9
  · obtain ⟨hs1, hs2, hs3⟩ := ssn_slices_ok h9
    obtain ⟨hp1, hp2, hp3⟩ := ssn_parses h9
    rw [if_neg (by omega : ¬((s.filter is_ascii_digit).length ≠ 9)),
      if_neg (by omega : ¬((s.filter is_ascii_digit).length ≠ 9))]
    simp only [hs1, hs2, hs3, Option.some_bind, hp1, hp2, hp3]
    by_cases hbad : (decimalVal ((s.filter is_ascii_digit).take 3) = 0 ∨
        decimalVal ((s.filter is_ascii_digit).take 3) = 666 ∨
        decimalVal ((s.filter is_ascii_digit).take 3) ≥ 900)
    · rw [if_pos hbad, if_pos hbad]
    · rw [if_neg hbad, if_neg hbad]
  · rw [if_pos h9, if_pos h9]

/-! ### The claims -/

/-- C1: for every input string, `luhn` returns `true` iff the subsequence of
ASCII decimal digits extracted from it has length between 13 and 19 inclusive
and the Luhn weighted sum — processing digits from last to first, doubling
digits at odd 0-indexed positions from the right and subtracting 9 when the
doubled value exceeds 9, leaving even-position digits unchanged — is
divisible by 10. -/
theorem luhn_spec_correct (s : List Char) :
    luhn s = true ↔
      (13 ≤ (spec_digit_seq s).length ∧ (spec_digit_seq s).length ≤ 19 ∧
       spec_luhn_sum (spec_digit_seq s) % 10 = 0) := by
  have h : spec_digit_seq s = luhn_digits s := (luhn_digits_eq_map s).symm
  rw [h]
  exact luhn_eq_true_iff s

/-- C2: for every input string, `ssn_format` returns `true` iff the extracted
ASCII digit sequence has exactly 9 digits and, splitting it into a 3-digit
area, 2-digit group and 4-digit serial, the area is not 0, not 666 and not
≥ 900, and both group and serial are strictly greater than zero. -/
theorem ssn_format_spec_correct (s : List Char) :
    ssn_format s = true ↔
      ((s.filter is_ascii_digit).length = 9 ∧
       decimalVal ((s.filter is_ascii_digit).take 3) ≠ 0 ∧
       decimalVal ((s.filter is_ascii_digit).take 3) ≠ 666 ∧
       decimalVal ((s.filter is_ascii_digit).take 3) < 900 ∧
       0 < decimalVal (((s.filter is_ascii_digit).drop 3).take 2) ∧
       0 < decimalVal (((s.filter is_ascii_digit).drop 5).take 4)) :=
  ssn_format_eq_true_iff s

/-- C3: punctuation invariance — for every digit sequence `D` and every
string `t` obtained by interleaving non-digit characters into `D` (so the
digit characters of `t` are exactly `D`), `luhn` and `ssn_format` return the
same verdict on `t` as on `D` alone. -/
theorem punctuation_invariance (D t : List Char)
    (hD : D.all is_ascii_digit = true)
    (ht : t.filter is_ascii_digit = D) :
    luhn t = luhn D ∧ ssn_format t = ssn_format D := by
  have hDf : D.filter is_ascii_digit = D :=
    List.filter_eq_self.mpr (List.all_eq_true.mp hD)
  have h : t.filter is_ascii_digit = D.filter is_ascii_digit := by rw [ht, hDf]
  exact ⟨luhn_filter_invariant h, ssn_filter_invariant h⟩

/-- Witness for C3 at the spec's own example strings. -/
theorem punctuation_invariance_witness :
    luhn ("4111-1111-1111-1111".toList) = luhn ("4111111111111111".toList) ∧
    ssn_format ("123 45 6789".toList) = ssn_format ("123456789".toList) :=
  ⟨(punctuation_invariance ("4111111111111111".toList) ("4111-1111-1111-1111".toList)
      (by decide) (by decide)).1,
   (punctuation_invariance ("123456789".toList) ("123 45 6789".toList)
      (by decide) (by decide)).2⟩

/-- C4: area boundary exhaustiveness — every 9-digit input whose area lies in
1–665 or 667–899 and whose group and serial fields are nonzero makes
`ssn_format` return `true`. -/
theorem area_boundary_valid (ds : List Char)
    (hall : ds.all is_ascii_digit = true) (hlen : ds.length = 9)
    (harea1 : 1 ≤ decimalVal (ds.take 3)) (harea2 : decimalVal (ds.take 3) ≤ 899)
    (harea3 : decimalVal (ds.take 3) ≠ 666)
    (hgrp : 0 < decimalVal ((ds.drop 3).take 2))
    (hser : 0 < decimalVal ((ds.drop 5).take 4)) :
    ssn_format ds = true := by
  have hDf : ds.filter is_ascii_digit = ds :=
    List.filter_eq_self.mpr (List.all_eq_true.mp hall)
  rw [ssn_format_eq_true_iff, hDf]
  exact ⟨hlen, by omega, harea3, by omega, hgrp, hser⟩

/-- Witness for C4 at the four boundary areas 1, 665, 667 and 899. -/
theorem area_boundary_valid_witness :
    ssn_format ("001016789".toList) = true ∧
    ssn_format ("665016789".toList) = true ∧
    ssn_format ("667016789".toList) = true ∧
    ssn_format ("899016789".toList) = true :=
  ⟨area_boundary_valid ("001016789".toList) (by decide) (by decide) (by decide)
      (by decide) (by decide) (by decide) (by decide),
   area_boundary_valid ("665016789".toList) (by decide) (by decide) (by decide)
      (by decide) (by decide) (by decide) (by decide),
   area_boundary_valid ("667016789".toList) (by decide) (by decide) (by decide)
      (by decide) (by decide) (by decide) (by decide),
   area_boundary_valid ("899016789".toList) (by decide) (by decide) (by decide)
      (by decide) (by decide) (by decide) (by decide)⟩

/-- C5: Luhn length boundary — 12 or 20 extracted digits always yield
`false` regardless of checksum, while 13 or 19 digits are decided exactly by
the checksum. -/
theorem luhn_length_boundary (s : List Char) :
    (((luhn_digits s).length = 12 ∨ (luhn_digits s).length = 20) →
      luhn s = false) ∧
    (((luhn_digits s).length = 13 ∨ (luhn_digits s).length = 19) →
      luhn s = (spec_luhn_sum (luhn_digits s) % 10 == 0)) := by
  constructor
  · intro h
    simp only [luhn]
    rw [if_pos (by omega)]
  · intro h
    simp only [luhn]
    rw [if_neg (by omega), luhn_sum_eq_spec]

/-- Witness for C5 at concrete 12-, 20-, 13- and 19-digit inputs. -/
theorem luhn_length_boundary_witness :
    luhn ("123456789012".toList) = false ∧
    luhn ("12345678901234567890".toList) = false ∧
    luhn ("4111111111111".toList) =
      (spec_luhn_sum (luhn_digits ("4111111111111".toList)) % 10 == 0) ∧
    luhn ("4111111111111111111".toList) =
      (spec_luhn_sum (luhn_digits ("4111111111111111111".toList)) % 10 == 0) :=
  ⟨(luhn_length_boundary ("123456789012".toList)).1 (Or.inl (by decide)),
   (luhn_length_boundary ("12345678901234567890".toList)).1 (Or.inr (by decide)),
   (luhn_length_boundary ("4111111111111".toList)).2 (Or.inl (by decide)),
   (luhn_length_boundary ("4111111111111111111".toList)).2 (Or.inr (by decide))⟩

/-- C6: totality — on every input string both validators return a boolean:
the panic-explicit versions never produce `none` and agree with the total
functions, so malformed input yields `false` rather than a fault. -/
theorem validators_total (s : List Char) :
    luhn_checked s = some (luhn s) ∧ ssn_format_checked s = some (ssn_format s) :=
  ⟨luhn_checked_eq s, ssn_format_checked_eq s⟩

/-- C7: once the 9-digit length gate has passed, the three fixed-width slices
of the filtered digit string are in bounds and the three integer parses
succeed, so the `Err` branches after each parse are unreachable. -/
theorem ssn_parse_never_fails (s : List Char)
    (h9 : (s.filter is_ascii_digit).length = 9) :
    (checked_slice (s.filter is_ascii_digit) 0 3).isSome = true ∧
    (checked_slice (s.filter is_ascii_digit) 3 5).isSome = true ∧
    (checked_slice (s.filter is_ascii_digit) 5 9).isSome = true ∧
    (parse_u32 ((s.filter is_ascii_digit).take 3)).isSome = true ∧
    (parse_u32 (((s.filter is_ascii_digit).drop 3).take 2)).isSome = true ∧
    (parse_u32 (((s.filter is_ascii_digit).drop 5).take 4)).isSome = true := by
  obtain ⟨hs1, hs2, hs3⟩ := ssn_slices_ok h9
  obtain ⟨hp1, hp2, hp3⟩ := ssn_parses h9
  rw [hs1, hs2, hs3, hp1, hp2, hp3]
  exact ⟨rfl, rfl, rfl, rfl, rfl, rfl⟩

/-- Witness for C7 at the spec's example identifier. -/
theorem ssn_parse_never_fails_witness :
    (checked_slice (("123-45-6789".toList).filter is_ascii_digit) 0 3).isSome = true ∧
    (checked_slice (("123-45-6789".toList).filter is_ascii_digit) 3 5).isSome = true ∧
    (checked_slice (("123-45-6789".toList).filter is_ascii_digit) 5 9).isSome = true ∧
    (parse_u32 ((("123-45-6789".toList).filter is_ascii_digit).take 3)).isSome = true ∧
    (parse_u32 (((("123-45-6789".toList).filter is_ascii_digit).drop 3).take 2)).isSome = true ∧
    (parse_u32 (((("123-45-6789".toList).filter is_ascii_digit).drop 5).take 4)).isSome = true :=
  ssn_parse_never_fails ("123-45-6789".toList) (by decide)

/-- C8: determinism and purity — the verdict of each validator is a function
of the input string alone: a batch of calls is a map, the last call's result
does not depend on the preceding calls, and two successive calls with the
same input return equal results. -/
theorem validators_deterministic (pre : List (List Char)) (s : List Char) :
    (runValidator luhn (pre ++ [s])).getLast? = some (luhn s) ∧
    (runValidator ssn_format (pre ++ [s])).getLast? = some (ssn_format s) ∧
    runValidator luhn [s, s] = [luhn s, luhn s] ∧
    runValidator ssn_format [s, s] = [ssn_format s, ssn_format s] := by
  refine ⟨?_, ?_, rfl, rfl⟩
  · unfold runValidator
    rw [List.map_append]
    exact List.getLast?_concat _
  · unfold runValidator
    rw [List.map_append]
    exact List.getLast?_concat _

/-- C9: in `luhn`'s checksum loop the subtraction `doubled - 9` never
underflows, the `u32` multiplications/additions never overflow (each
transformed digit is at most 18 and at most 19 digits are summed, so the sum
stays ≤ 342), and release-mode wrapping arithmetic agrees with the ideal
arithmetic: the computation is exact for every input. -/
theorem luhn_arithmetic_exact (s : List Char) :
    luhn_checked s = some (luhn s) ∧
    ((luhn_digits s).length ≤ 19 →
      luhn_sum_u32 (luhn_digits s) = luhn_sum (luhn_digits s) ∧
      luhn_sum (luhn_digits s) ≤ 342) := by
  refine ⟨luhn_checked_eq s, fun hlen => ⟨?_, ?_⟩⟩
  · exact luhn_sum_u32_eq (luhn_digits_lt_ten s) hlen
  · have := luhn_sum_le (luhn_digits_lt_ten s)
    omega

/-- Witness for C9 at a 16-digit card number. -/
theorem luhn_arithmetic_exact_witness :
    luhn_sum_u32 (luhn_digits ("4111111111111111".toList)) =
      luhn_sum (luhn_digits ("4111111111111111".toList)) ∧
    luhn_sum (luhn_digits ("4111111111111111".toList)) ≤ 342 :=
  (luhn_arithmetic_exact ("4111111111111111".toList)).2 (by decide)

/-- C10: the Python-exposed wrappers are extensionally equal to the
validators: for every input each wrapper returns exactly what the underlying
validator returns. -/
theorem wrappers_equal_validators (s : List Char) :
    validate_luhn s = luhn s ∧ validate_ssn_format s = ssn_format s :=
  ⟨rfl, rfl⟩
